import Mathlib

/-!
# TileNet: a shallow embedding of the tile-grid collision library

This file embeds the data model and operations of the TileNet library
(files `src/lib.rs`, `src/tiles/mod.rs`, `src/collable/mod.rs`) and proves
the specification claims about them.

The grid container itself (`tiles/tilenet.rs`: `TileNet::get`, `get_mut`,
`new`, `from_iter`, `resize`, `view_box`) and the geometry module
(`defs.rs`: `Vector`, `Line`, `SuperCover`) are declared by the crate but
their source files are not part of the repository snapshot; those
definitions are modelled from the specification text, as indicated in
their doc comments.  Everything else (the `TileSet` and `TileView`
iterators, `Points`, and the `Collable` protocol `solve`/`tiles`) is
translated directly from the Rust source.

Continuous coordinates are embedded as rationals: the spec documents the
algorithms as correct only for magnitudes below `2^24`, where `f32`
arithmetic on the quantities involved is exact enough to behave like
ideal arithmetic; `ℚ` is the idealisation of that regime.
-/

/-- The dense 2D tile grid.  Modelled from the spec: "a rectangular,
row-major dense mapping from integer coordinate (column, row),
0 ≤ column < width, 0 ≤ row < height, to a value of an arbitrary
caller-supplied type" (`tiles/tilenet.rs` is missing from the snapshot;
only its tests and callers are present). -/
structure TileNet (T : Type) where
  map : List T
  width : Nat
  height : Nat
deriving Repr

/-- Bounds test used by `TileSet::next` (`tiles/mod.rs` lines 78-79):
`point.0 >= 0 && point.1 >= 0 && point.0 < w as i32 && point.1 < h as i32`. -/
def TileNet.inBounds {T : Type} (t : TileNet T) (p : Int × Int) : Bool :=
  decide (0 ≤ p.1) && decide (p.1 < (t.width : Int)) &&
  decide (0 ≤ p.2) && decide (p.2 < (t.height : Int))

/-- The value stored at an in-bounds coordinate: row-major index
`column + row * width` into the backing sequence. -/
def TileNet.cellValue {T : Type} [Inhabited T] (t : TileNet T) (p : Int × Int) : T :=
  t.map.getD (p.1.toNat + p.2.toNat * t.width) default

/-- Modelled from the spec: "`get(coord) -> value or absent`: absent iff
coord outside [0,width)×[0,height)" (`tiles/tilenet.rs` is missing). -/
def TileNet.get {T : Type} [Inhabited T] (t : TileNet T) (p : Int × Int) : Option T :=
  if t.inBounds p then some (t.cellValue p) else none

/-- Modelled from the spec: "`get_mut(coord) -> mutable handle or absent`:
same bounds rule; mutation through the handle is immediately visible to
subsequent reads" (`tiles/tilenet.rs` is missing).  The handle is modelled
as the current value together with a write-back function. -/
def TileNet.get_mut {T : Type} [Inhabited T] (t : TileNet T) (p : Int × Int) :
    Option (T × (T → TileNet T)) :=
  if t.inBounds p then
    some (t.cellValue p,
      fun v => { t with map := t.map.set (p.1.toNat + p.2.toNat * t.width) v })
  else none

/-- Row-major backing list of a `width × height` grid whose cell at
column `c`, row `r` holds `f c r`. -/
def mkGrid {T : Type} (w h : Nat) (f : Nat → Nat → T) : List T :=
  (List.range (w * h)).map (fun i => f (i % w) (i / w))

/-- Modelled from the spec: `TileNet::new` — "All tiles are initialized to
`Default`" (`tiles/tilenet.rs` is missing). -/
def TileNet.new (T : Type) [Inhabited T] (w h : Nat) : TileNet T :=
  { map := List.replicate (w * h) default, width := w, height := h }

/-- Modelled from the spec: "construction from a flat sequence of values
filled row-major; if the sequence is shorter than width×height the
remainder default-fills; if longer, the excess is ignored"
(`tiles/tilenet.rs` is missing). -/
def TileNet.from_iter {T : Type} [Inhabited T] (w h : Nat) (xs : List T) : TileNet T :=
  { map := mkGrid w h (fun c r => xs.getD (c + r * w) default),
    width := w, height := h }

/-- Modelled from the spec: "`resize(new_size)`: changes width/height;
cells whose coordinates remain in range keep their prior value; newly
exposed cells receive the type's default value; cells dropped by
shrinking are discarded" (`tiles/tilenet.rs` is missing). -/
def TileNet.resize {T : Type} [Inhabited T] (t : TileNet T) (s : Nat × Nat) : TileNet T :=
  { map := mkGrid s.1 s.2 (fun c r =>
      if c < t.width ∧ r < t.height
      then t.map.getD (c + r * t.width) default
      else default),
    width := s.1, height := s.2 }



/-- The tile sampler (`tiles/mod.rs` lines 47-54): a grid reference, the
underlying coordinate iterator (embedded as the list of coordinates it has
yet to produce), and the last visited coordinate. -/
structure TileSet (T : Type) where
  tilenet : TileNet T
  points : List (Int × Int)
  last_coord : Int × Int
deriving Repr

/-- `TileSet::get_last_coord` (`tiles/mod.rs` lines 64-66). -/
def TileSet.get_last_coord {T : Type} (s : TileSet T) : Int × Int :=
  s.last_coord

/-- The skipping loop inside `TileSet::next` (`tiles/mod.rs` lines 74-88):
pull a coordinate, record it in `last_coord`, return the grid cell if the
coordinate is in bounds, otherwise continue; `None` when the underlying
iterator is exhausted. -/
def tileSetNextGo {T : Type} [Inhabited T] (net : TileNet T) :
    List (Int × Int) → (Int × Int) → Option T × TileSet T
  | [], lc => (none, { tilenet := net, points := [], last_coord := lc })
  | p :: rest, _lc =>
    if net.inBounds p then
      (net.get p, { tilenet := net, points := rest, last_coord := p })
    else
      tileSetNextGo net rest p

/-- `Iterator::next` for `TileSet` (`tiles/mod.rs` lines 74-88), returning
the produced item together with the advanced iterator state. -/
def TileSet.next {T : Type} [Inhabited T] (s : TileSet T) : Option T × TileSet T :=
  tileSetNextGo s.tilenet s.points s.last_coord

/-- Collect up to `fuel` items from a `TileSet`. -/
def TileSet.collect {T : Type} [Inhabited T] : Nat → TileSet T → List T
  | 0, _ => []
  | fuel + 1, s =>
    match s.next with
    | (none, _) => []
    | (some v, s') => v :: TileSet.collect fuel s'

/-- Advance a `TileSet` by `n` calls to `next`, discarding the items. -/
def TileSet.consumeN {T : Type} [Inhabited T] : Nat → TileSet T → TileSet T
  | 0, s => s
  | n + 1, s => TileSet.consumeN n s.next.2

/-- `#[derive(Clone)]` on `TileSet` (`tiles/mod.rs` line 47): each field is
cloned — the grid reference is shared, the coordinate iterator's remaining
state and the last visited coordinate are copied. -/
def TileSet.clone {T : Type} (s : TileSet T) : TileSet T :=
  { tilenet := s.tilenet, points := s.points, last_coord := s.last_coord }

/-- Modelled from the spec: `TileNet::collide_set` wraps the grid and a
coordinate iterator into a `TileSet` (`tiles/tilenet.rs` is missing; the
initial `last_coord` is unobservable before the first pull and is modelled
as `(0, 0)`). -/
def TileNet.collide_set {T : Type} (t : TileNet T) (points : List (Int × Int)) :
    TileSet T :=
  { tilenet := t, points := points, last_coord := (0, 0) }

/-- The rectangular view iterator (`tiles/mod.rs` lines 109-116): the grid,
the clipped rectangle `(x_start, x_end, y_start, y_end)` (ends exclusive),
and the cursor `(column, row)`. -/
structure TileView (T : Type) where
  tilenet : TileNet T
  rectangle : Nat × Nat × Nat × Nat
  current : Nat × Nat
deriving Repr

/-- `TileView::new` (`tiles/mod.rs` lines 121-131): clips the rectangle's
column end to the grid width and row end to the grid height and places the
cursor at the rectangle's top-left corner. -/
def TileView.new {T : Type} (t : TileNet T) (rect : Nat × Nat × Nat × Nat) :
    TileView T :=
  let r1 := min rect.2.1 t.width
  let r3 := min rect.2.2.2 t.height
  { tilenet := t,
    rectangle := (rect.1, r1, rect.2.2.1, r3),
    current := (rect.1, rect.2.2.1) }

/-- `Iterator::next` for `TileView` (`tiles/mod.rs` lines 138-150): stop
when the cursor's row reaches the rectangle's row end; otherwise read the
cell under the cursor, then advance the cursor column-first, wrapping to
the next row at the rectangle's column end. -/
def TileView.next {T : Type} [Inhabited T] (v : TileView T) :
    Option (T × Nat × Nat) × TileView T :=
  if v.rectangle.2.2.2 ≤ v.current.2 then (none, v)
  else
    let tile := (v.tilenet.get ((v.current.1 : Int), (v.current.2 : Int))).map
      (fun x => (x, v.current.1, v.current.2))
    let c0 := v.current.1 + 1
    let v' :=
      if v.rectangle.2.1 ≤ c0
      then { v with current := (v.rectangle.1, v.current.2 + 1) }
      else { v with current := (c0, v.current.2) }
    (tile, v')

/-- Collect up to `fuel` items from a `TileView`. -/
def TileView.collect {T : Type} [Inhabited T] : Nat → TileView T → List (T × Nat × Nat)
  | 0, _ => []
  | fuel + 1, v =>
    match v.next with
    | (none, _) => []
    | (some x, v') => x :: TileView.collect fuel v'

/-- Modelled from the spec: "`view_box(rect)` … produces a View over a
rectangle, clipped to grid bounds" (`tiles/tilenet.rs` is missing; the
clipping itself is `TileView::new`, which is in the source). -/
def TileNet.view_box {T : Type} (t : TileNet T) (rect : Nat × Nat × Nat × Nat) :
    TileView T :=
  TileView.new t rect

/-- Modelled from the spec: "**Vector**: pair of floating-point coordinates
(x, y); supports addition, scalar scaling, and squared-norm" (`defs.rs` is
missing from the snapshot).  Coordinates are embedded as rationals, the
ideal behaviour of `f32` below the documented `2^24` precision limit. -/
structure Vector where
  x : ℚ
  y : ℚ
deriving Repr, DecidableEq

instance : Add Vector := ⟨fun a b => ⟨a.x + b.x, a.y + b.y⟩⟩

/-- `Vector::from_tuple` (used by `Points::next` and `Collable::tiles`). -/
def Vector.from_tuple (t : ℚ × ℚ) : Vector :=
  ⟨t.1, t.2⟩

/-- Modelled from the spec: "**Line**: ordered pair of Vectors
(origin, destination) in continuous space" (`defs.rs` is missing). -/
structure Line where
  origin : Vector
  dest : Vector
deriving Repr, DecidableEq

/-- The integer grid cell containing a continuous point: floors of its
coordinates. -/
def Vector.cell (v : Vector) : Int × Int :=
  (⌊v.x⌋, ⌊v.y⌋)

/-- One step of the supercover DDA.  Modelled from the spec: "at each step,
advance along whichever axis has the nearer next integer boundary crossing,
emitting the new cell; when the segment … passes exactly through a lattice
corner, both the cell sharing the edge and the cell sharing the corner must
be emitted" (`defs.rs` is missing).  Returns the cells emitted before the
new current cell, together with the new current cell.  `tX`/`tY` are the
line parameters of the next vertical/horizontal boundary crossings
(`none` = no crossing on that axis). -/
def scStep (O D : Vector) (cur : Int × Int) : List (Int × Int) × (Int × Int) :=
  let vx := D.x - O.x
  let vy := D.y - O.y
  let sx : Int := if 0 < vx then 1 else -1
  let sy : Int := if 0 < vy then 1 else -1
  let bX : ℚ := if 0 < vx then (cur.1 + 1 : Int) else (cur.1 : Int)
  let bY : ℚ := if 0 < vy then (cur.2 + 1 : Int) else (cur.2 : Int)
  let tX : Option ℚ := if vx = 0 then none else some ((bX - O.x) / vx)
  let tY : Option ℚ := if vy = 0 then none else some ((bY - O.y) / vy)
  match tX, tY with
  | none, none => ([], cur)
  | some _, none => ([], (cur.1 + sx, cur.2))
  | none, some _ => ([], (cur.1, cur.2 + sy))
  | some tx, some ty =>
    if tx < ty then ([], (cur.1 + sx, cur.2))
    else if ty < tx then ([], (cur.1, cur.2 + sy))
    else ([(cur.1 + sx, cur.2), (cur.1, cur.2 + sy)], (cur.1 + sx, cur.2 + sy))

/-- The supercover walk after the starting cell.  Modelled from the spec's
endpoint rule: the walk stops as soon as the current cell equals the cell
containing the destination, and that terminal cell "is computed by checking
the endpoint coordinates directly (not by accumulating the DDA stepper)":
should the stepper's fuel run out before agreeing with the directly
computed destination cell, the destination cell itself is emitted. -/
def scWalk (O D : Vector) (stop : Int × Int) : Nat → (Int × Int) → List (Int × Int)
  | 0, cur => if cur = stop then [] else [stop]
  | n + 1, cur =>
    if cur = stop then []
    else
      let s := scStep O D cur
      s.1 ++ s.2 :: scWalk O D stop n s.2

/-- Modelled from the spec: `Line::supercover` produces the ordered cell
sequence from the cell containing the origin to the cell containing the
destination, both computed directly from the endpoints (`defs.rs` is
missing). -/
def Line.supercover (l : Line) : List (Int × Int) :=
  let start := l.origin.cell
  let stop := l.dest.cell
  start :: scWalk l.origin l.dest stop
    ((stop.1 - start.1).natAbs + (stop.2 - start.2).natAbs) start

/-- The vertex iterator (`collable/mod.rs` lines 9-13): static points, an
offset, and a cursor index. -/
structure Points where
  index : Nat
  offset : Vector
  points : List (ℚ × ℚ)
deriving Repr

/-- `Points::new` (`collable/mod.rs` lines 30-36). -/
def Points.new (offset : Vector) (points : List (ℚ × ℚ)) : Points :=
  { index := 0, offset := offset, points := points }

/-- `Iterator::next` for `Points` (`collable/mod.rs` lines 39-50): read the
point at the cursor, add the offset, advance the cursor. -/
def Points.next (p : Points) : Option (ℚ × ℚ) × Points :=
  (p.points[p.index]?.map (fun t =>
      let v := Vector.from_tuple t + p.offset
      (v.x, v.y)),
   { p with index := p.index + 1 })

/-- The pairing loop inside `Collable::tiles` (`collable/mod.rs` lines
116-122): `for point1 in origin { let point2 = destination.next().unwrap();
… }`.  The `unwrap` is embedded as `Option`: the whole loop returns `none`
exactly when some `destination.next()` comes back empty (the panic the
claim asserts is unreachable); otherwise it returns the list of `Line`s
built, one per origin point. -/
def tilesLoop (origin destination : Points) : Option (List Line) :=
  match h : origin.next with
  | (none, _) => some []
  | (some p1, o') =>
    match destination.next.1 with
    | none => none
    | some p2 =>
      (tilesLoop o' destination.next.2).map
        (fun ls => Line.mk (Vector.from_tuple p1) (Vector.from_tuple p2) :: ls)
termination_by origin.points.length - origin.index
decreasing_by
  have h1 : (Points.next origin).1 = some p1 := by rw [h]
  have h2 : o' = (Points.next origin).2 := by rw [h]
  have hlt : origin.index < origin.points.length := by
    simp only [Points.next, Option.map_eq_some', List.getElem?_eq_some_iff] at h1
    obtain ⟨a, ⟨ha, _⟩, _⟩ := h1
    exact ha
  subst h2
  simp only [Points.next]
  omega

/-- `Collable::tiles` (`collable/mod.rs` lines 110-124), up to the final
rasterization of each line: origin iterator at the object's position,
destination iterator at the position offset by the queued displacement,
paired by the loop. -/
def Collable.tiles (pos : Vector) (pts : List (ℚ × ℚ)) (queued : Vector) :
    Option (List Line) :=
  let origin := Points.new pos pts
  let destination := Points.new (pos + queued) pts
  tilesLoop origin destination

/-- `Collable::tiles` with every line rasterized (`multi.push(Box::new(
line.supercover()))`): one rasterized sequence pushed per vertex.  The
external merge collaborator that interleaves them is out of scope. -/
def Collable.tilesRaster (pos : Vector) (pts : List (ℚ × ℚ)) (queued : Vector) :
    Option (List (List (Int × Int))) :=
  (Collable.tiles pos pts queued).map (List.map Line.supercover)

/-- Observable events of one `Collable::solve` call: the `presolve` hook,
each `resolve` attempt with its boolean outcome, and the `postsolve` hook
with its `(collided_once, resolved)` arguments. -/
inductive SolveEvent
  | presolveEv : SolveEvent
  | resolveCall : Bool → SolveEvent
  | postsolveEv : Bool → Bool → SolveEvent
deriving Repr, DecidableEq

/-- `static MAX_ITERATIONS: usize = 30` (`collable/mod.rs` line 92). -/
def MAX_ITERATIONS : Nat := 30

/-- The retry loop of `Collable::solve` (`collable/mod.rs` lines 95-103),
recorded as an event trace.  The object is an abstract state `σ`; one
`resolve` attempt is a state transition returning the new object state and
the accept/reject boolean (the sampled tile sequence the Rust code passes
to `resolve` is a pure function of the object state and the grid, so it is
absorbed into the transition).  `collided` is the `collided_once` flag
accumulated so far. -/
def solveGo {σ : Type} (resolve : σ → σ × Bool) : Nat → σ → Bool → List SolveEvent
  | 0, _, collided => [SolveEvent.postsolveEv collided false]
  | n + 1, s, collided =>
    let r := resolve s
    SolveEvent.resolveCall r.2 ::
      if r.2 then [SolveEvent.postsolveEv collided true]
      else solveGo resolve n r.1 true

/-- `Collable::solve` (`collable/mod.rs` lines 90-104) as an event trace:
`presolve`, then the bounded retry loop with `collided_once` initially
false, ending in `postsolve(collided_once, resolved)`. -/
def solve {σ : Type} (resolve : σ → σ × Bool) (s : σ) : List SolveEvent :=
  SolveEvent.presolveEv :: solveGo resolve MAX_ITERATIONS s false

/-- The object state after `n` rejected `resolve` attempts. -/
def solveIter {σ : Type} (resolve : σ → σ × Bool) : Nat → σ → σ
  | 0, s => s
  | n + 1, s => solveIter resolve n (resolve s).1

/-- Number of `resolve` calls recorded in a trace. -/
def countResolveCalls (es : List SolveEvent) : Nat :=
  es.countP (fun e => match e with
    | SolveEvent.resolveCall _ => true
    | _ => false)

/-- Number of `presolve` calls recorded in a trace. -/
def countPresolves (es : List SolveEvent) : Nat :=
  es.countP (fun e => match e with
    | SolveEvent.presolveEv => true
    | _ => false)

/-- Number of `postsolve` calls recorded in a trace. -/
def countPostsolves (es : List SolveEvent) : Nat :=
  es.countP (fun e => match e with
    | SolveEvent.postsolveEv _ _ => true
    | _ => false)

def tileDrain {T : Type} [Inhabited T] (net : TileNet T) (points : List (Int × Int)) : List T :=
  (points.filter (fun p => net.inBounds p)).map (fun p => net.cellValue p)

/-- A concrete resolve transition used to witness the solve protocol:
the object state is a call counter and the third call accepts. -/
def wSolveResolve : Nat → Nat × Bool :=
  fun n => (n + 1, decide (n = 2))

theorem mkGrid_getD {T : Type} [Inhabited T] {w h : Nat} (f : Nat → Nat → T) {c r : Nat}
    (hc : c < w) (hr : r < h) (d : T) :
    (mkGrid w h f).getD (c + r * w) d = f c r := by
  have hidx : c + r * w < w * h := by
    calc c + r * w < w + r * w := by omega
    _ = (r + 1) * w := by ring
    _ ≤ h * w := Nat.mul_le_mul_right w (by omega)
    _ = w * h := Nat.mul_comm h w
  unfold mkGrid
  rw [List.getD_eq_getElem?_getD, List.getElem?_map, List.getElem?_range hidx]
  simp [Nat.add_mul_mod_self_right, Nat.mod_eq_of_lt hc,
    Nat.add_mul_div_right c r (by omega : 0 < w), Nat.div_eq_of_lt hc]

theorem mkGrid_length {T : Type} {w h : Nat} (f : Nat → Nat → T) :
    (mkGrid w h f).length = w * h := by
  simp [mkGrid]

theorem TileNet.inBounds_coe {T : Type} (t : TileNet T) {c r : Nat}
    (hc : c < t.width) (hr : r < t.height) :
    t.inBounds ((c : Int), (r : Int)) = true := by
  simp [TileNet.inBounds]
  omega

theorem TileNet.get_coe {T : Type} [Inhabited T] (t : TileNet T) {c r : Nat}
    (hc : c < t.width) (hr : r < t.height) :
    t.get ((c : Int), (r : Int)) = some (t.map.getD (c + r * t.width) default) := by
  rw [TileNet.get, if_pos (t.inBounds_coe hc hr)]
  simp [TileNet.cellValue]

theorem TileNet.get_resize {T : Type} [Inhabited T] (t : TileNet T) {w h c r : Nat}
    (hc : c < w) (hr : r < h) :
    (t.resize (w, h)).get ((c : Int), (r : Int)) =
      some (if c < t.width ∧ r < t.height
            then t.map.getD (c + r * t.width) default else default) := by
  rw [TileNet.resize]
  rw [TileNet.get_coe (⟨_, w, h⟩ : TileNet T) hc hr]
  rw [mkGrid_getD _ hc hr]

/-- Claim C4: `get` and `get_mut` return a present value iff
0 ≤ column < width and 0 ≤ row < height, and an explicit absent result
otherwise, for every integer coordinate — in particular at the boundary
values -1, 0, W-1, W, H-1, H. -/
theorem tilenet_get_bounds {T : Type} [Inhabited T] (t : TileNet T) (c r : Int) :
    ((t.get (c, r)).isSome ↔ (0 ≤ c ∧ c < (t.width : Int) ∧ 0 ≤ r ∧ r < (t.height : Int))) ∧
    ((t.get_mut (c, r)).isSome ↔ (0 ≤ c ∧ c < (t.width : Int) ∧ 0 ≤ r ∧ r < (t.height : Int))) := by
  constructor <;>
    simp [TileNet.get, TileNet.get_mut, TileNet.inBounds, apply_ite] <;>
    tauto

/-- Claim C5: on the 10×10 grid filled row-major with the values 1..100,
the view over columns 3 (inclusive) to 8 (exclusive) and rows 1 (inclusive)
to 4 (exclusive) yields exactly the values 14..18, 24..28, 34..38, in that
order. -/
theorem view_box_concrete :
    (((TileNet.from_iter 10 10 (List.range' 1 100)).view_box (3, 8, 1, 4)).collect 100).map
        (fun x => x.1) =
      [14, 15, 16, 17, 18, 24, 25, 26, 27, 28, 34, 35, 36, 37, 38] := by
  decide

/-- Claim C6: a grid constructed from a flat value sequence is filled
row-major; cells beyond the sequence's length hold the default value, and
elements beyond width×height are ignored and affect no cell. -/
theorem from_iter_spec {T : Type} [Inhabited T] (w h : Nat) (xs : List T) (c r : Nat)
    (hc : c < w) (hr : r < h) :
    ((TileNet.from_iter w h xs).get ((c : Int), (r : Int)) =
      some (if c + r * w < xs.length then xs.getD (c + r * w) default else default)) ∧
    (∀ ys : List T, w * h ≤ xs.length →
      TileNet.from_iter w h (xs ++ ys) = TileNet.from_iter w h xs) := by
  constructor
  · rw [TileNet.from_iter]
    rw [TileNet.get_coe (⟨_, w, h⟩ : TileNet T) hc hr]
    rw [mkGrid_getD _ hc hr]
    congr 1
    split
    · rfl
    · exact List.getD_eq_default _ _ (by omega)
  · intro ys hlen
    rw [TileNet.from_iter, TileNet.from_iter]
    congr 1
    apply List.map_congr_left
    intro i hi
    rw [List.mem_range] at hi
    have hiw : i % w + i / w * w = i := Nat.mod_add_div' i w
    have hilt : i % w + i / w * w < xs.length := by omega
    dsimp only
    rw [List.getD_eq_getElem?_getD, List.getD_eq_getElem?_getD,
      List.getElem?_append_left hilt]

/-- Witness for claim C6 on a 2×2 grid built from five values. -/
theorem from_iter_spec_witness :
    ((TileNet.from_iter 2 2 [7, 8, 9, 10, 11]).get ((1 : Int), (1 : Int)) =
      some (if 1 + 1 * 2 < [7, 8, 9, 10, 11].length
            then [7, 8, 9, 10, 11].getD (1 + 1 * 2) default else default)) ∧
    (TileNet.from_iter 2 2 ([7, 8, 9, 10, 11] ++ [12]) =
      TileNet.from_iter 2 2 [7, 8, 9, 10, 11]) :=
  ⟨(from_iter_spec 2 2 [7, 8, 9, 10, 11] 1 1 (by decide) (by decide)).1,
   (from_iter_spec 2 2 [7, 8, 9, 10, 11] 1 1 (by decide) (by decide)).2 [12] (by decide)⟩

/-- Claim C7: resizing (W,H) → (W',H') → (W,H) preserves every cell lying
inside both the original and the intermediate bounds; after a single
resize, in-range cells keep their prior value and newly exposed cells hold
the default value. -/
theorem resize_spec {T : Type} [Inhabited T] (t : TileNet T) (wi hj : Nat) (c r : Nat) :
    (c < t.width → c < wi → r < t.height → r < hj →
      ((t.resize (wi, hj)).resize (t.width, t.height)).get ((c : Int), (r : Int)) =
        t.get ((c : Int), (r : Int))) ∧
    (c < wi → r < hj →
      (t.resize (wi, hj)).get ((c : Int), (r : Int)) =
        if c < t.width ∧ r < t.height
        then t.get ((c : Int), (r : Int)) else some default) := by
  constructor
  · intro hc hc' hr hr'
    rw [TileNet.get_resize _ hc hr, TileNet.get_coe t hc hr]
    have hw : (t.resize (wi, hj)).width = wi := rfl
    have hh : (t.resize (wi, hj)).height = hj := rfl
    rw [hw, hh, if_pos ⟨hc', hr'⟩]
    simp only [TileNet.resize]
    rw [mkGrid_getD _ hc' hr', if_pos ⟨hc, hr⟩]
  · intro hc' hr'
    rw [TileNet.get_resize _ hc' hr']
    split
    · next hold =>
      rw [TileNet.get_coe t hold.1 hold.2]
    · rfl

/-- Witness for claim C7: a 3×3 grid resized to (2,4) and back. -/
theorem resize_spec_witness :
    (((TileNet.from_iter 3 3 (List.range' 1 9)).resize (2, 4)).resize (3, 3)).get
        ((1 : Int), (1 : Int)) =
      (TileNet.from_iter 3 3 (List.range' 1 9)).get ((1 : Int), (1 : Int)) ∧
    ((TileNet.from_iter 3 3 (List.range' 1 9)).resize (2, 4)).get ((1 : Int), (1 : Int)) =
      (if 1 < (TileNet.from_iter 3 3 (List.range' 1 9)).width ∧
           1 < (TileNet.from_iter 3 3 (List.range' 1 9)).height
       then (TileNet.from_iter 3 3 (List.range' 1 9)).get ((1 : Int), (1 : Int))
       else some default) := by
  have h := resize_spec (TileNet.from_iter 3 3 (List.range' 1 9)) 2 4 1 1
  refine ⟨?_, h.2 (by decide) (by decide)⟩
  have h1 := h.1 (by decide) (by decide) (by decide) (by decide)
  convert h1 using 3

theorem TileSet.collect_succ {T : Type} [Inhabited T] (fuel : Nat) (s : TileSet T) :
    TileSet.collect (fuel + 1) s =
      match s.next with
      | (none, _) => []
      | (some v, s') => v :: TileSet.collect fuel s' := rfl

theorem tileSetNextGo_tilenet {T : Type} [Inhabited T] (net : TileNet T) :
    ∀ (points : List (Int × Int)) (lc : Int × Int),
      (tileSetNextGo net points lc).2.tilenet = net := by
  intro points
  induction points with
  | nil => intro lc; rfl
  | cons p rest ih =>
    intro lc
    rw [tileSetNextGo]
    split
    · rfl
    · exact ih p

theorem collect_eq_tileDrain_aux {T : Type} [Inhabited T] (net : TileNet T) :
    ∀ (points : List (Int × Int)) (lc : Int × Int) (fuel : Nat),
      points.length ≤ fuel →
      TileSet.collect fuel ⟨net, points, lc⟩ = tileDrain net points := by
  intro points
  induction points with
  | nil =>
    intro lc fuel _
    cases fuel with
    | zero => rfl
    | succ m => rfl
  | cons p rest ih =>
    intro lc fuel hfuel
    cases fuel with
    | zero => simp at hfuel
    | succ m =>
      by_cases hb : net.inBounds p
      · have hnext : (⟨net, p :: rest, lc⟩ : TileSet T).next =
            (some (net.cellValue p), ⟨net, rest, p⟩) := by
          simp [TileSet.next, tileSetNextGo, hb, TileNet.get]
        rw [TileSet.collect_succ, hnext]
        dsimp only
        have := ih p m (by simpa using hfuel)
        rw [this]
        simp [tileDrain, hb]
      · have hnext : (⟨net, p :: rest, lc⟩ : TileSet T).next =
            (⟨net, rest, p⟩ : TileSet T).next := by
          simp [TileSet.next, tileSetNextGo, hb]
        rw [TileSet.collect_succ, hnext, ← TileSet.collect_succ]
        have := ih p (m + 1) (by simp at hfuel; omega)
        rw [this]
        simp [tileDrain, hb]

theorem collect_eq_tileDrain {T : Type} [Inhabited T] (s : TileSet T) (fuel : Nat)
    (h : s.points.length ≤ fuel) :
    TileSet.collect fuel s = tileDrain s.tilenet s.points :=
  collect_eq_tileDrain_aux s.tilenet s.points s.last_coord fuel h

/-- Claim C3: iterating the `TileSet` sampler yields exactly the cell
values of the in-bounds input coordinates, in their original relative
order; out-of-bounds coordinates produce no output element at all and do
not terminate the iteration. -/
theorem tileset_skip_law {T : Type} [Inhabited T] (t : TileNet T)
    (points : List (Int × Int)) (lc : Int × Int) :
    TileSet.collect points.length ⟨t, points, lc⟩ =
      (points.filter (fun p => t.inBounds p)).map (fun p => t.cellValue p) :=
  collect_eq_tileDrain_aux t points lc points.length (Nat.le_refl _)

/-- Claim C8: `get_last_coord` returns the input coordinate most recently
pulled from the underlying sequence, whether in-bounds or out-of-bounds:
a `next` call either skips a rejected prefix and stops at the first
in-bounds coordinate, recording it, or — when every remaining coordinate
is out-of-bounds — terminates having recorded the last coordinate
examined. -/
theorem get_last_coord_spec {T : Type} [Inhabited T] (t : TileNet T)
    (points : List (Int × Int)) (lc : Int × Int) (h : points ≠ []) :
    (∃ pre p rest, points = pre ++ p :: rest ∧
      (∀ q ∈ pre, t.inBounds q = false) ∧ t.inBounds p = true ∧
      TileSet.next ⟨t, points, lc⟩ = (some (t.cellValue p), ⟨t, rest, p⟩) ∧
      (TileSet.next ⟨t, points, lc⟩).2.get_last_coord = p) ∨
    ((∀ q ∈ points, t.inBounds q = false) ∧
      ∃ l, points.getLast? = some l ∧
        TileSet.next ⟨t, points, lc⟩ = (none, ⟨t, [], l⟩) ∧
        (TileSet.next ⟨t, points, lc⟩).2.get_last_coord = l) := by
  induction points generalizing lc with
  | nil => exact absurd rfl h
  | cons p rest ih =>
    by_cases hb : t.inBounds p
    · left
      refine ⟨[], p, rest, rfl, by simp, hb, ?_, ?_⟩
      · simp [TileSet.next, tileSetNextGo, hb, TileNet.get]
      · simp [TileSet.next, tileSetNextGo, hb, TileSet.get_last_coord]
    · have hnext : TileSet.next (⟨t, p :: rest, lc⟩ : TileSet T) =
          TileSet.next ⟨t, rest, p⟩ := by
        simp [TileSet.next, tileSetNextGo, hb]
      cases rest with
      | nil =>
        right
        refine ⟨by simpa using hb, p, rfl, ?_, ?_⟩
        · simp [TileSet.next, tileSetNextGo, hb]
        · simp [TileSet.next, tileSetNextGo, hb, TileSet.get_last_coord]
      | cons q qs =>
        rcases ih p (by simp) with
          ⟨pre, p', rest', heq, hpre, hp', hnx, hlast⟩ | ⟨hall, l, hgl, hnx, hlast⟩
        · left
          refine ⟨p :: pre, p', rest', by rw [heq]; simp, ?_, hp', ?_, ?_⟩
          · intro x hx
            rcases List.mem_cons.mp hx with hxp | hxpre
            · subst hxp; simpa using hb
            · exact hpre x hxpre
          · rw [hnext, hnx]
          · rw [hnext, hnx]
            simp [TileSet.get_last_coord]
        · right
          refine ⟨?_, l, ?_, ?_, ?_⟩
          · intro x hx
            rcases List.mem_cons.mp hx with hxp | hxrest
            · subst hxp; simpa using hb
            · exact hall x hxrest
          · rw [List.getLast?_cons_cons]; exact hgl
          · rw [hnext, hnx]
          · rw [hnext, hnx]
            simp [TileSet.get_last_coord]

/-- Witness for claim C8: two out-of-bounds coordinates on a 2×2 grid. -/
theorem get_last_coord_spec_witness :
    (∃ pre p rest, ([(5, 5), (7, 7)] : List (Int × Int)) = pre ++ p :: rest ∧
      (∀ q ∈ pre, (TileNet.new Nat 2 2).inBounds q = false) ∧
      (TileNet.new Nat 2 2).inBounds p = true ∧
      TileSet.next ⟨TileNet.new Nat 2 2, [(5, 5), (7, 7)], (0, 0)⟩ =
        (some ((TileNet.new Nat 2 2).cellValue p), ⟨TileNet.new Nat 2 2, rest, p⟩) ∧
      (TileSet.next ⟨TileNet.new Nat 2 2, [(5, 5), (7, 7)], (0, 0)⟩).2.get_last_coord = p) ∨
    ((∀ q ∈ ([(5, 5), (7, 7)] : List (Int × Int)),
        (TileNet.new Nat 2 2).inBounds q = false) ∧
      ∃ l, ([(5, 5), (7, 7)] : List (Int × Int)).getLast? = some l ∧
        TileSet.next ⟨TileNet.new Nat 2 2, [(5, 5), (7, 7)], (0, 0)⟩ =
          (none, ⟨TileNet.new Nat 2 2, [], l⟩) ∧
        (TileSet.next ⟨TileNet.new Nat 2 2, [(5, 5), (7, 7)], (0, 0)⟩).2.get_last_coord = l) :=
  get_last_coord_spec (TileNet.new Nat 2 2) [(5, 5), (7, 7)] (0, 0) (by decide)

theorem tileDrain_next {T : Type} [Inhabited T] (net : TileNet T) :
    ∀ (points : List (Int × Int)) (lc : Int × Int),
      tileDrain net (tileSetNextGo net points lc).2.points =
        (tileDrain net points).drop 1 := by
  intro points
  induction points with
  | nil => intro lc; rfl
  | cons p rest ih =>
    intro lc
    by_cases hb : net.inBounds p
    · simp [tileSetNextGo, hb, tileDrain]
    · rw [tileSetNextGo, if_neg (by simpa using hb), ih p]
      simp [tileDrain, hb]

theorem tileSet_consumeN_tilenet {T : Type} [Inhabited T] :
    ∀ (n : Nat) (s : TileSet T), (TileSet.consumeN n s).tilenet = s.tilenet := by
  intro n
  induction n with
  | zero => intro s; rfl
  | succ m ih =>
    intro s
    rw [TileSet.consumeN, ih]
    exact tileSetNextGo_tilenet s.tilenet s.points s.last_coord

theorem tileDrain_consumeN {T : Type} [Inhabited T] :
    ∀ (n : Nat) (s : TileSet T),
      tileDrain s.tilenet (TileSet.consumeN n s).points =
        (tileDrain s.tilenet s.points).drop n := by
  intro n
  induction n with
  | zero => intro s; rfl
  | succ m ih =>
    intro s
    rw [TileSet.consumeN]
    have h1 := ih s.next.2
    have h2 : s.next.2.tilenet = s.tilenet :=
      tileSetNextGo_tilenet s.tilenet s.points s.last_coord
    rw [h2] at h1
    rw [h1]
    simp only [TileSet.next]
    rw [tileDrain_next s.tilenet s.points s.last_coord]
    rw [List.drop_drop, Nat.add_comm]

/-- Claim C9: cloning a `TileSet` yields an independent cursor starting
from the same state: the clone equals the original state, yields the same
value stream, reports the same last-visited coordinate, and consuming `n`
elements through the clone produces a new cursor whose remaining stream is
the original stream with `n` elements dropped, the original state value
being untouched. -/
theorem tileset_clone_spec {T : Type} [Inhabited T] (s : TileSet T) (n fuel : Nat) :
    (TileSet.clone s = s) ∧
    (TileSet.collect fuel (TileSet.clone s) = TileSet.collect fuel s) ∧
    ((TileSet.clone s).get_last_coord = s.get_last_coord) ∧
    (TileSet.collect (TileSet.consumeN n (TileSet.clone s)).points.length
        (TileSet.consumeN n (TileSet.clone s)) =
      (TileSet.collect s.points.length s).drop n) := by
  refine ⟨rfl, rfl, rfl, ?_⟩
  have hclone : TileSet.clone s = s := rfl
  rw [hclone]
  rw [collect_eq_tileDrain (TileSet.consumeN n s) _ (Nat.le_refl _)]
  rw [collect_eq_tileDrain s _ (Nat.le_refl _)]
  rw [tileSet_consumeN_tilenet n s]
  exact tileDrain_consumeN n s

theorem scWalk_getLast (O D : Vector) (stop : Int × Int) :
    ∀ (n : Nat) (cur : Int × Int),
      (cur :: scWalk O D stop n cur).getLast? = some stop := by
  intro n
  induction n with
  | zero =>
    intro cur
    rw [scWalk]
    by_cases hc : cur = stop
    · rw [if_pos hc, hc]; rfl
    · rw [if_neg hc]
      rfl
  | succ m ih =>
    intro cur
    rw [scWalk]
    by_cases hc : cur = stop
    · rw [if_pos hc, hc]; rfl
    · rw [if_neg hc]
      rw [show cur :: ((scStep O D cur).1 ++ (scStep O D cur).2 :: scWalk O D stop m (scStep O D cur).2) =
            (cur :: (scStep O D cur).1) ++ ((scStep O D cur).2 :: scWalk O D stop m (scStep O D cur).2) from rfl]
      rw [List.getLast?_append, ih (scStep O D cur).2]
      rfl

/-- Claim C1: for every line segment (coordinate magnitudes below the
2^24 precision limit), the supercover cell sequence is non-empty, its
first element is the grid cell containing the origin and its last element
is the grid cell containing the destination, both computed directly from
the endpoint coordinates; a degenerate segment yields exactly the single
containing cell. -/
theorem supercover_endpoints (l : Line)
    (_h1 : |l.origin.x| < 2 ^ 24) (_h2 : |l.origin.y| < 2 ^ 24)
    (_h3 : |l.dest.x| < 2 ^ 24) (_h4 : |l.dest.y| < 2 ^ 24) :
    l.supercover ≠ [] ∧
    l.supercover.head? = some l.origin.cell ∧
    l.supercover.getLast? = some l.dest.cell ∧
    (l.origin = l.dest → l.supercover = [l.origin.cell]) := by
  refine ⟨by rw [Line.supercover]; exact List.cons_ne_nil _ _, rfl, ?_, ?_⟩
  · rw [Line.supercover]
    exact scWalk_getLast l.origin l.dest l.dest.cell _ l.origin.cell
  · intro heq
    rw [Line.supercover, heq]
    rw [show (l.dest.cell.1 - l.dest.cell.1).natAbs + (l.dest.cell.2 - l.dest.cell.2).natAbs = 0 by simp]
    rw [scWalk, if_pos rfl]

/-- Witness for claim C1 at the segment (1/2, 1/2) → (5/2, 3/2). -/
theorem supercover_endpoints_witness :
    (Line.mk ⟨mkRat 1 2, mkRat 1 2⟩ ⟨mkRat 5 2, mkRat 3 2⟩).supercover ≠ [] ∧
    (Line.mk ⟨mkRat 1 2, mkRat 1 2⟩ ⟨mkRat 5 2, mkRat 3 2⟩).supercover.head? =
      some (Line.mk ⟨mkRat 1 2, mkRat 1 2⟩ ⟨mkRat 5 2, mkRat 3 2⟩).origin.cell ∧
    (Line.mk ⟨mkRat 1 2, mkRat 1 2⟩ ⟨mkRat 5 2, mkRat 3 2⟩).supercover.getLast? =
      some (Line.mk ⟨mkRat 1 2, mkRat 1 2⟩ ⟨mkRat 5 2, mkRat 3 2⟩).dest.cell ∧
    ((Line.mk ⟨mkRat 1 2, mkRat 1 2⟩ ⟨mkRat 5 2, mkRat 3 2⟩).origin = (Line.mk ⟨mkRat 1 2, mkRat 1 2⟩ ⟨mkRat 5 2, mkRat 3 2⟩).dest →
      (Line.mk ⟨mkRat 1 2, mkRat 1 2⟩ ⟨mkRat 5 2, mkRat 3 2⟩).supercover =
        [(Line.mk ⟨mkRat 1 2, mkRat 1 2⟩ ⟨mkRat 5 2, mkRat 3 2⟩).origin.cell]) :=
  supercover_endpoints (Line.mk ⟨mkRat 1 2, mkRat 1 2⟩ ⟨mkRat 5 2, mkRat 3 2⟩)
    (by decide) (by decide) (by decide) (by decide)

theorem solveGo_always_false {σ : Type} (resolve : σ → σ × Bool)
    (h : ∀ u, (resolve u).2 = false) :
    ∀ (n : Nat) (s : σ) (c : Bool),
      solveGo resolve n s c =
        List.replicate n (SolveEvent.resolveCall false) ++
          [SolveEvent.postsolveEv (if n = 0 then c else true) false] := by
  intro n
  induction n with
  | zero => intro s c; rfl
  | succ m ih =>
    intro s c
    rw [solveGo]
    simp only [h (s)]
    rw [ih (resolve s).1 true]
    simp [List.replicate_succ]

theorem solveGo_first_true {σ : Type} (resolve : σ → σ × Bool) :
    ∀ (j n : Nat) (s : σ) (c : Bool), j + 1 ≤ n →
      (∀ i < j, (resolve (solveIter resolve i s)).2 = false) →
      (resolve (solveIter resolve j s)).2 = true →
      solveGo resolve n s c =
        List.replicate j (SolveEvent.resolveCall false) ++
          [SolveEvent.resolveCall true,
           SolveEvent.postsolveEv (if j = 0 then c else true) true] := by
  intro j
  induction j with
  | zero =>
    intro n s c hn _ hacc
    cases n with
    | zero => omega
    | succ m =>
      rw [solveGo]
      simp only [solveIter] at hacc
      simp [hacc]
  | succ k ih =>
    intro n s c hn hfirst hacc
    cases n with
    | zero => omega
    | succ m =>
      have h0 : (resolve s).2 = false := by
        have := hfirst 0 (Nat.succ_pos k)
        simpa [solveIter] using this
      rw [solveGo]
      simp only [h0]
      have hfirst' : ∀ i < k, (resolve (solveIter resolve i (resolve s).1)).2 = false := by
        intro i hi
        have := hfirst (i + 1) (by omega)
        rwa [show solveIter resolve (i + 1) s = solveIter resolve i (resolve s).1 from rfl] at this
      have hacc' : (resolve (solveIter resolve k (resolve s).1)).2 = true := by
        rwa [show solveIter resolve (k + 1) s = solveIter resolve k (resolve s).1 from rfl] at hacc
      rw [ih m (resolve s).1 true (by omega) hfirst' hacc']
      simp [List.replicate_succ]

theorem solveGo_shape {σ : Type} (resolve : σ → σ × Bool) :
    ∀ (n : Nat) (s : σ) (c : Bool),
      countPresolves (solveGo resolve n s c) = 0 ∧
      countPostsolves (solveGo resolve n s c) = 1 ∧
      ∃ cb rb, (solveGo resolve n s c).getLast? = some (SolveEvent.postsolveEv cb rb) := by
  intro n
  induction n with
  | zero =>
    intro s c
    exact ⟨rfl, rfl, c, false, rfl⟩
  | succ m ih =>
    intro s c
    rw [solveGo]
    by_cases hb : (resolve s).2
    · rw [hb]
      exact ⟨rfl, rfl, c, true, rfl⟩
    · rw [Bool.not_eq_true] at hb
      rw [hb]
      obtain ⟨hpre, hpost, cb, rb, hlast⟩ := ih (resolve s).1 true
      refine ⟨?_, ?_, cb, rb, ?_⟩
      · simpa [countPresolves, List.countP_cons] using hpre
      · simpa [countPostsolves, List.countP_cons] using hpost
      · rw [List.getLast?_cons]
        simp [hlast]

/-- Claim C2: `solve` begins with exactly one `presolve` and ends with
exactly one `postsolve`; a `resolve` that always rejects is called exactly
30 times, after which `postsolve(true, false)` is invoked with no error;
a `resolve` that first accepts on the k-th call (1 ≤ k ≤ 30) is called
exactly k times, after which `postsolve(k > 1, true)` is invoked. -/
theorem collable_solve_spec {σ : Type} (resolve : σ → σ × Bool) (s : σ) (k : Nat)
    (hk1 : 1 ≤ k) (hk : k ≤ MAX_ITERATIONS) :
    ((solve resolve s).head? = some SolveEvent.presolveEv) ∧
    countPresolves (solve resolve s) = 1 ∧
    countPostsolves (solve resolve s) = 1 ∧
    ((∀ u, (resolve u).2 = false) →
      countResolveCalls (solve resolve s) = MAX_ITERATIONS ∧
      (solve resolve s).getLast? = some (SolveEvent.postsolveEv true false)) ∧
    ((∀ i < k - 1, (resolve (solveIter resolve i s)).2 = false) →
      (resolve (solveIter resolve (k - 1) s)).2 = true →
      countResolveCalls (solve resolve s) = k ∧
      (solve resolve s).getLast? = some (SolveEvent.postsolveEv (decide (1 < k)) true)) := by
  obtain ⟨hpre, hpost, cb, rb, hlast⟩ := solveGo_shape resolve MAX_ITERATIONS s false
  refine ⟨rfl, ?_, ?_, ?_, ?_⟩
  · simpa [solve, countPresolves, List.countP_cons] using hpre
  · simpa [solve, countPostsolves, List.countP_cons] using hpost
  · intro hall
    rw [solve, solveGo_always_false resolve hall MAX_ITERATIONS s false]
    constructor
    · simp [countResolveCalls, List.countP_cons, List.countP_append,
        List.countP_replicate, MAX_ITERATIONS]
    · rw [List.getLast?_cons, List.getLast?_concat]
      rfl
  · intro hfirst hacc
    rw [solve, solveGo_first_true resolve (k - 1) MAX_ITERATIONS s false (by omega) hfirst hacc]
    constructor
    · simp [countResolveCalls, List.countP_cons, List.countP_append,
        List.countP_replicate]
      omega
    · rw [List.getLast?_cons]
      rw [show List.replicate (k - 1) (SolveEvent.resolveCall false) ++
            [SolveEvent.resolveCall true,
             SolveEvent.postsolveEv (if k - 1 = 0 then false else true) true] =
          (List.replicate (k - 1) (SolveEvent.resolveCall false) ++
            [SolveEvent.resolveCall true]) ++
            [SolveEvent.postsolveEv (if k - 1 = 0 then false else true) true] by simp]
      rw [List.getLast?_concat]
      have : (if k - 1 = 0 then false else true) = decide (1 < k) := by
        rcases Nat.eq_or_lt_of_le hk1 with h1 | h1
        · simp [← h1]
        · have : ¬(k - 1 = 0) := by omega
          simp [this, h1]
      rw [this]
      rfl

/-- Witness for claim C2: a resolve accepting on its third call. -/
theorem collable_solve_spec_witness :
    countResolveCalls (solve wSolveResolve 0) = 3 ∧
    (solve wSolveResolve 0).getLast? = some (SolveEvent.postsolveEv true true) :=
  (collable_solve_spec wSolveResolve 0 3 (by decide) (by decide)).2.2.2.2
    (by decide) (by decide)

theorem Vector.add_def (a b : Vector) : a + b = ⟨a.x + b.x, a.y + b.y⟩ := rfl

theorem Vector.add_assoc (a b c : Vector) : a + b + c = a + (b + c) := by
  simp [Vector.add_def]
  constructor <;> ring

theorem tilesLoop_eq (l : List (ℚ × ℚ)) :
    ∀ (d i : Nat), l.length - i = d → ∀ (off1 off2 : Vector),
      tilesLoop ⟨i, off1, l⟩ ⟨i, off2, l⟩ =
        some ((l.drop i).map (fun p =>
          Line.mk (Vector.from_tuple p + off1) (Vector.from_tuple p + off2))) := by
  intro d
  induction d with
  | zero =>
    intro i hd off1 off2
    have hge : l.length ≤ i := by omega
    have hnone : l[i]? = none := List.getElem?_eq_none_iff.mpr hge
    rw [tilesLoop]
    split
    · simp [List.drop_eq_nil_of_le hge]
    · next p1 o' heq =>
      injection heq with h1 h2
      rw [hnone] at h1
      simp at h1
  | succ m ih =>
    intro i hd off1 off2
    have hlt : i < l.length := by omega
    have hsome : l[i]? = some l[i] := List.getElem?_eq_getElem hlt
    rw [tilesLoop]
    split
    · next snd heq =>
      injection heq with h1 h2
      rw [hsome] at h1
      simp at h1
    · next p1 o' heq =>
      injection heq with h1 h2
      rw [hsome] at h1
      simp only [Option.map_some'] at h1
      injection h1 with h1
      simp only [Points.next, hsome, Option.map_some']
      rw [← h2, ← h1]
      dsimp only
      rw [ih (i + 1) (by omega) off1 off2]
      rw [List.drop_eq_getElem_cons hlt]
      rfl

/-- Claim C10: in `Collable::tiles` the destination iterator yields an
element for every origin point, so the `unwrap` on `destination.next()`
never fails; the i-th origin point is points[i] + position, the i-th
destination point is points[i] + position + queued, and exactly one
rasterized line is pushed per vertex. -/
theorem collable_tiles_spec (pos : Vector) (pts : List (ℚ × ℚ)) (queued : Vector) :
    (Collable.tiles pos pts queued =
      some (pts.map (fun p =>
        Line.mk (Vector.from_tuple p + pos) (Vector.from_tuple p + pos + queued)))) ∧
    (∃ rs, Collable.tilesRaster pos pts queued = some rs ∧ rs.length = pts.length) := by
  have hloop := tilesLoop_eq pts (pts.length - 0) 0 rfl pos (pos + queued)
  have htiles : Collable.tiles pos pts queued =
      some (pts.map (fun p =>
        Line.mk (Vector.from_tuple p + pos) (Vector.from_tuple p + pos + queued))) := by
    rw [Collable.tiles, Points.new, Points.new, hloop, List.drop_zero]
    congr 1
    apply List.map_congr_left
    intro p _
    rw [Vector.add_assoc]
  refine ⟨htiles, ?_⟩
  refine ⟨(pts.map (fun p =>
      Line.mk (Vector.from_tuple p + pos) (Vector.from_tuple p + pos + queued))).map
        Line.supercover, ?_, by simp⟩
  rw [Collable.tilesRaster, htiles]
  rfl
